import Mathlib

/-!
Verification of the zplconvert core (src/zplconvert/zplconvert.py).

The development shallowly embeds the two pipeline stages of the program:

* the monochrome raster encoder of `ZPLPrinterApp.print_image`
  (binarization, byte packing, hex transcription, ZPL command text), and
* the label-region recovery of `extract_label_from_pdf`
  (letter-size classification, content bounding box, whole-page-coverage
  check, column-density refinement, label-size resolution, crop and
  rotation).

Pixels are modelled as natural-number samples (0..255), images as lists of
rows.  Python floats are modelled as rationals; Python `int(x)` on a
nonnegative value is the floor.  Python's `max(0, a - b)` on integers
coincides with truncated subtraction on `Nat`.
-/

/-! ### Decimal rendering (model of Python `str` on a nonnegative int,
as used by the f-strings of `print_image`). -/

/-- Digit accumulator for decimal rendering: fuel-indexed version of
repeated division by 10, most significant digit first. -/
def decAux : Nat → Nat → List Char
  | 0, _ => []
  | _ + 1, 0 => []
  | fuel + 1, n => decAux fuel (n / 10) ++ [Char.ofNat (48 + n % 10)]

/-- Model of Python `str(n)` for a nonnegative integer `n`. -/
def pyStr (n : Nat) : String :=
  if n = 0 then "0" else String.mk (decAux n n)

/-- A decimal-digit character. -/
def isDigitChar (c : Char) : Bool :=
  decide (48 ≤ c.toNat) && decide (c.toNat ≤ 57)

/-- The string is a decimal integer with no leading zeros: nonempty, all
digits, and either exactly "0" or not starting with '0'. -/
def decNoLeadingZeros (s : String) : Bool :=
  !s.data.isEmpty && s.data.all isDigitChar &&
    (decide (s.data = ['0']) || decide (s.data.head? ≠ some '0'))

/-! ### Bit packing (model of `img.tobytes()` on a PIL mode-'1' image:
rows packed independently, 8 pixels per byte, most significant bit first,
trailing bits of the last byte of a row padded with 0). -/

/-- Numeric value of one bit. -/
def bitVal (b : Bool) : Nat := if b then 1 else 0

/-- Value of a bit list read most-significant-bit first. -/
def packBits (l : List Bool) : Nat :=
  l.foldl (fun a b => 2 * a + bitVal b) 0

/-- Pack one pixel row into bytes, 8 bits per byte MSB first; a final
short chunk is shifted into the high bits, its trailing bits zero. -/
def packRowBytes : List Bool → List Nat
  | [] => []
  | b0 :: b1 :: b2 :: b3 :: b4 :: b5 :: b6 :: b7 :: rest =>
      packBits [b0, b1, b2, b3, b4, b5, b6, b7] :: packRowBytes rest
  | l => [packBits l * 2 ^ (8 - l.length)]

/-! ### Hex transcription (model of `f'\x7bbyte:02X\x7d'` and the
empty-separator string join of line 488). -/

/-- One uppercase hex digit (value 0..15). -/
def hexDigit (n : Nat) : Char :=
  if n < 10 then Char.ofNat (48 + n) else Char.ofNat (55 + n)

/-- The two uppercase hex characters of one byte. -/
def byteHexChars (b : Nat) : List Char := [hexDigit (b / 16), hexDigit (b % 16)]

/-- Hex transcription of one packed row, no separators. -/
def rowHex (bytes : List Nat) : String :=
  String.mk (bytes.map byteHexChars).flatten

/-- An uppercase hexadecimal character (0-9 or A-F). -/
def isUpperHexChar (c : Char) : Bool :=
  (decide (48 ≤ c.toNat) && decide (c.toNat ≤ 57)) ||
    (decide (65 ≤ c.toNat) && decide (c.toNat ≤ 70))

/-! ### Decoding, used to state the round-trip property. -/

/-- Value of one uppercase hex character. -/
def hexCharVal (c : Char) : Nat :=
  if 65 ≤ c.toNat then c.toNat - 55 else c.toNat - 48

/-- Decode a hex string back into bytes, two characters per byte. -/
def unhexBytes : List Char → List Nat
  | c1 :: c2 :: rest => (16 * hexCharVal c1 + hexCharVal c2) :: unhexBytes rest
  | _ => []

/-- The 8 bits of a byte, most significant first. -/
def byteBits (b : Nat) : List Bool :=
  [decide (b / 128 % 2 = 1), decide (b / 64 % 2 = 1), decide (b / 32 % 2 = 1),
   decide (b / 16 % 2 = 1), decide (b / 8 % 2 = 1), decide (b / 4 % 2 = 1),
   decide (b / 2 % 2 = 1), decide (b % 2 = 1)]

/-- Decode a hex row back into its bit pattern. -/
def decodeRowBits (s : String) : List Bool :=
  ((unhexBytes s.data).map byteBits).flatten

/-! ### The hex-row loop of `print_image`
(`for i in range(0, len(binary_data), bytes_per_row)`), modelled with a
fuel argument that is instantiated with the length of the data; for a
positive step the fuel is sufficient since every iteration consumes at
least one element. -/

/-- Fuel-indexed chunking of a list by a step. -/
def chunkListF : Nat → Nat → List Nat → List (List Nat)
  | 0, _, _ => []
  | _ + 1, _, [] => []
  | fuel + 1, step, x :: xs =>
      (x :: xs).take step :: chunkListF fuel step ((x :: xs).drop step)

/-- Chunk a list by a step, as the Python slice loop does. -/
def chunkList (step : Nat) (l : List Nat) : List (List Nat) :=
  chunkListF l.length step l

/-! ### The raster encoder of `ZPLPrinterApp.print_image` (lines 448-505). -/

/-- The image handed to `print_image`: either grayscale (PIL mode 'L',
samples 0..255) or already 1-bit (PIL mode '1', `true` = white = 1). -/
inductive PILImage where
  | gray (width : Nat) (rows : List (List Nat))
  | oneBit (width : Nat) (rows : List (List Bool))

/-- Pixel width of the image. -/
def PILImage.width : PILImage → Nat
  | .gray w _ => w
  | .oneBit w _ => w

/-- Pixel height of the image. -/
def PILImage.height : PILImage → Nat
  | .gray _ rows => rows.length
  | .oneBit _ rows => rows.length

/-- The binarization step of `print_image`: a grayscale image passes
through `img.point(lambda x: 0 if x >= threshold else 255, mode='1')`
(so bit 1, i.e. white-in-'1'-mode, exactly when the sample is below the
threshold); an image already in mode '1' is left untouched and the
threshold is never consulted. -/
def toBits (threshold : Nat) : PILImage → List (List Bool)
  | .gray _ rows => rows.map (fun r => r.map (fun x => decide (x < threshold)))
  | .oneBit _ rows => rows

/-- Line 479: `bytes_per_row = (width + 7) // 8`. -/
def bytesPerRowOf (width : Nat) : Nat := (width + 7) / 8

/-- Line 495: `total_bytes = bytes_per_row * height`. -/
def totalBytesOf (width height : Nat) : Nat := bytesPerRowOf width * height

/-- The print parameters read from the UI (all validated nonnegative
integers), except the threshold which is passed separately. -/
structure PrintParams where
  positionX : Nat
  positionY : Nat
  printSpeed : Nat
  darkness : Nat
  quantity : Nat
  pw : Nat
  ll : Nat

/-- The raster-encoding core of `print_image`: binarize, pack, hex, and
assemble the ZPL text.  A zero `bytes_per_row` (zero-width image) makes
Python's `range(0, len(binary_data), bytes_per_row)` raise
`ValueError: range() arg 3 must not be zero`, modelled as an error. -/
def zplOfImage (img : PILImage) (threshold : Nat) (p : PrintParams) :
    Except String String :=
  let width := img.width
  let height := img.height
  let bits := toBits threshold img
  let bytes_per_row := bytesPerRowOf width
  let binary_data := (bits.map packRowBytes).flatten
  if bytes_per_row = 0 then
    Except.error "range() arg 3 must not be zero"
  else
    let hex_data := String.intercalate "\n" ((chunkList bytes_per_row binary_data).map rowHex)
    let total_bytes := totalBytesOf width height
    Except.ok ("^XA\n" ++ "^PW" ++ pyStr p.pw ++ "\n^LL" ++ pyStr p.ll ++ "\n" ++
      "^PR" ++ pyStr p.printSpeed ++ ",0,0\n" ++ "^MD" ++ pyStr p.darkness ++ "\n" ++
      "^PQ" ++ pyStr p.quantity ++ "\n" ++
      "^FO" ++ pyStr p.positionX ++ "," ++ pyStr p.positionY ++ "\n" ++
      "^GFA," ++ pyStr total_bytes ++ "," ++ pyStr total_bytes ++ "," ++
      pyStr bytes_per_row ++ ",\n" ++ hex_data ++ "\n" ++ "^FS\n^XZ")

/-! ### Helper lemmas about decimal rendering. -/

lemma decAux_zero : ∀ fuel, decAux fuel 0 = []
  | 0 => rfl
  | _ + 1 => rfl

lemma digitChar_isDigit : ∀ d, d < 10 → isDigitChar (Char.ofNat (48 + d)) = true := by
  decide

lemma digitChar_ne_zeroChar : ∀ d, d < 10 → 0 < d → Char.ofNat (48 + d) ≠ '0' := by
  decide

lemma decAux_spec : ∀ fuel n, 0 < n → n ≤ fuel →
    ∃ c cs, decAux fuel n = c :: cs ∧ c ≠ '0' ∧
      ∀ d ∈ (c :: cs), isDigitChar d = true := by
  intro fuel
  induction fuel with
  | zero => intro n hn hle; omega
  | succ f ih =>
    intro n hn hle
    have hunf : decAux (f + 1) n = decAux f (n / 10) ++ [Char.ofNat (48 + n % 10)] := by
      match f, n, hn with
      | _, n + 1, _ => rfl
    by_cases hlt : n < 10
    · have hdiv : n / 10 = 0 := Nat.div_eq_of_lt hlt
      have hmod : n % 10 = n := Nat.mod_eq_of_lt hlt
      refine ⟨Char.ofNat (48 + n), [], ?_, ?_, ?_⟩
      · rw [hunf, hdiv, decAux_zero, hmod]; rfl
      · exact digitChar_ne_zeroChar n hlt hn
      · intro d hd
        simp only [List.mem_singleton] at hd
        subst hd; exact digitChar_isDigit n hlt
    · have hpos : 0 < n / 10 := Nat.div_pos (by omega) (by omega)
      have hfle : n / 10 ≤ f := by
        have := Nat.div_lt_self hn (by omega : 1 < 10)
        omega
      obtain ⟨c, cs, heq, hc, hall⟩ := ih (n / 10) hpos hfle
      refine ⟨c, cs ++ [Char.ofNat (48 + n % 10)], ?_, hc, ?_⟩
      · rw [hunf, heq]; rfl
      · intro d hd
        rcases List.mem_cons.mp hd with h | h
        · rw [h]; exact hall c (List.mem_cons_self c cs)
        · rcases List.mem_append.mp h with h1 | h2
          · exact hall d (List.mem_cons_of_mem c h1)
          · simp only [List.mem_singleton] at h2
            subst h2; exact digitChar_isDigit _ (Nat.mod_lt n (by omega))

lemma pyStr_noLeadingZeros (n : Nat) : decNoLeadingZeros (pyStr n) = true := by
  by_cases hn : n = 0
  · subst hn; decide
  · have hn' : 0 < n := Nat.pos_of_ne_zero hn
    obtain ⟨c, cs, heq, hc, hall⟩ := decAux_spec n n hn' le_rfl
    have hdata : (pyStr n).data = c :: cs := by
      simp only [pyStr, if_neg hn]; rw [heq]
    unfold decNoLeadingZeros
    rw [hdata]
    have h1 : (!(c :: cs).isEmpty) = true := rfl
    have h2 : (c :: cs).all isDigitChar = true := List.all_eq_true.mpr hall
    have h3 : decide ((c :: cs).head? ≠ some '0') = true := by
      apply decide_eq_true
      simpa using hc
    rw [h1, h2, h3]
    simp

/-! ### Helper lemmas about bit packing and hex transcription. -/

lemma packBits_foldl_lt : ∀ (l : List Bool) (a : Nat),
    List.foldl (fun x b => 2 * x + bitVal b) a l < (a + 1) * 2 ^ l.length := by
  intro l
  induction l with
  | nil => intro a; simp
  | cons b t ih =>
    intro a
    have h1 := ih (2 * a + bitVal b)
    have hb : bitVal b ≤ 1 := by cases b <;> simp [bitVal]
    calc List.foldl (fun x b => 2 * x + bitVal b) a (b :: t)
        = List.foldl (fun x b => 2 * x + bitVal b) (2 * a + bitVal b) t := rfl
      _ < (2 * a + bitVal b + 1) * 2 ^ t.length := h1
      _ ≤ ((a + 1) * 2) * 2 ^ t.length := by
          apply Nat.mul_le_mul_right; omega
      _ = (a + 1) * 2 ^ (t.length + 1) := by ring
      _ = (a + 1) * 2 ^ (b :: t).length := by simp

lemma packBits_lt (l : List Bool) : packBits l < 2 ^ l.length := by
  simpa [packBits] using packBits_foldl_lt l 0

lemma length_lt_eight_of_no_eight (l : List Bool)
    (h2 : ∀ (b0 b1 b2 b3 b4 b5 b6 b7 : Bool) (rest : List Bool),
        l = b0 :: b1 :: b2 :: b3 :: b4 :: b5 :: b6 :: b7 :: rest → False) :
    l.length < 8 := by
  by_contra h
  push_neg at h
  rcases l with _ | ⟨b0, l⟩
  · simp only [List.length_nil] at h; omega
  rcases l with _ | ⟨b1, l⟩
  · simp only [List.length_cons, List.length_nil] at h; omega
  rcases l with _ | ⟨b2, l⟩
  · simp only [List.length_cons, List.length_nil] at h; omega
  rcases l with _ | ⟨b3, l⟩
  · simp only [List.length_cons, List.length_nil] at h; omega
  rcases l with _ | ⟨b4, l⟩
  · simp only [List.length_cons, List.length_nil] at h; omega
  rcases l with _ | ⟨b5, l⟩
  · simp only [List.length_cons, List.length_nil] at h; omega
  rcases l with _ | ⟨b6, l⟩
  · simp only [List.length_cons, List.length_nil] at h; omega
  rcases l with _ | ⟨b7, l⟩
  · simp only [List.length_cons, List.length_nil] at h; omega
  exact h2 b0 b1 b2 b3 b4 b5 b6 b7 l rfl

lemma packRowBytes_lt : ∀ (l : List Bool), ∀ b ∈ packRowBytes l, b < 256 := by
  intro l
  induction l using packRowBytes.induct with
  | case1 => intro b hb; simp [packRowBytes] at hb
  | case2 b0 b1 b2 b3 b4 b5 b6 b7 rest ih =>
    intro b hb
    rw [packRowBytes] at hb
    rcases List.mem_cons.mp hb with h | h
    · subst h
      have := packBits_lt [b0, b1, b2, b3, b4, b5, b6, b7]
      simpa using this
    · exact ih b h
  | case3 l h1 h2 =>
    intro b hb
    have hlen : l.length < 8 := length_lt_eight_of_no_eight l h2
    rw [packRowBytes.eq_3 l h1 h2] at hb
    simp only [List.mem_singleton] at hb
    subst hb
    calc packBits l * 2 ^ (8 - l.length)
        < 2 ^ l.length * 2 ^ (8 - l.length) :=
          mul_lt_mul_of_pos_right (packBits_lt l) (pow_pos (by norm_num) _)
      _ = 2 ^ (l.length + (8 - l.length)) := (pow_add 2 _ _).symm
      _ = 256 := by
          have : l.length + (8 - l.length) = 8 := by omega
          rw [this]; norm_num

set_option maxRecDepth 4000 in
lemma byteHexChars_upper : ∀ b, b < 256 → (byteHexChars b).all isUpperHexChar = true := by
  decide

lemma rowHex_upper (bytes : List Nat) (hb : ∀ b ∈ bytes, b < 256) :
    ∀ c ∈ (rowHex bytes).data, isUpperHexChar c = true := by
  intro c hc
  have hc' : c ∈ (bytes.map byteHexChars).flatten := hc
  obtain ⟨l, hl, hcl⟩ := List.mem_flatten.mp hc'
  obtain ⟨b, hbmem, rfl⟩ := List.mem_map.mp hl
  exact List.all_eq_true.mp (byteHexChars_upper b (hb b hbmem)) c hcl

set_option maxRecDepth 4000 in
lemma hexpair_val : ∀ b, b < 256 →
    16 * hexCharVal (hexDigit (b / 16)) + hexCharVal (hexDigit (b % 16)) = b := by
  decide

lemma unhex_rowHex : ∀ (bytes : List Nat), (∀ b ∈ bytes, b < 256) →
    unhexBytes (rowHex bytes).data = bytes := by
  intro bytes
  induction bytes with
  | nil => intro _; rfl
  | cons b rest ih =>
    intro hb
    have hb0 : b < 256 := hb b (List.mem_cons_self b rest)
    have hrest : ∀ x ∈ rest, x < 256 := fun x hx => hb x (List.mem_cons_of_mem b hx)
    show unhexBytes (((b :: rest).map byteHexChars).flatten) = b :: rest
    have : ((b :: rest).map byteHexChars).flatten =
        hexDigit (b / 16) :: hexDigit (b % 16) :: ((rest.map byteHexChars).flatten) := rfl
    rw [this]
    show (16 * hexCharVal (hexDigit (b / 16)) + hexCharVal (hexDigit (b % 16))) ::
        unhexBytes ((rest.map byteHexChars).flatten) = b :: rest
    rw [hexpair_val b hb0]
    exact congrArg (b :: ·) (ih hrest)

set_option maxRecDepth 2000 in
lemma byteBits_pack8 : ∀ b0 b1 b2 b3 b4 b5 b6 b7 : Bool,
    byteBits (packBits [b0, b1, b2, b3, b4, b5, b6, b7]) =
      [b0, b1, b2, b3, b4, b5, b6, b7] := by
  decide

lemma byteBits_packShort : ∀ (l : List Bool), l.length < 8 →
    byteBits (packBits l * 2 ^ (8 - l.length)) = l ++ List.replicate (8 - l.length) false
  | [], _ => by decide
  | [b0], _ => by revert b0; decide
  | [b0, b1], _ => by revert b0 b1; decide
  | [b0, b1, b2], _ => by revert b0 b1 b2; decide
  | [b0, b1, b2, b3], _ => by revert b0 b1 b2 b3; decide
  | [b0, b1, b2, b3, b4], _ => by revert b0 b1 b2 b3 b4; decide
  | [b0, b1, b2, b3, b4, b5], _ => by revert b0 b1 b2 b3 b4 b5; decide
  | [b0, b1, b2, b3, b4, b5, b6], _ => by revert b0 b1 b2 b3 b4 b5 b6; decide
  | _ :: _ :: _ :: _ :: _ :: _ :: _ :: _ :: _, h => by
      simp only [List.length_cons] at h; omega

lemma packRowBytes_length : ∀ (l : List Bool),
    (packRowBytes l).length = bytesPerRowOf l.length := by
  intro l
  induction l using packRowBytes.induct with
  | case1 => rfl
  | case2 b0 b1 b2 b3 b4 b5 b6 b7 rest ih =>
    show (packRowBytes (b0 :: b1 :: b2 :: b3 :: b4 :: b5 :: b6 :: b7 :: rest)).length =
      bytesPerRowOf (rest.length + 8)
    rw [packRowBytes]
    simp only [List.length_cons, ih]
    unfold bytesPerRowOf
    omega
  | case3 l h1 h2 =>
    have hlen : l.length < 8 := length_lt_eight_of_no_eight l h2
    have hne : l ≠ [] := fun h => h1 h
    have hpos : 0 < l.length := List.length_pos.mpr hne
    rw [packRowBytes.eq_3 l h1 h2]
    simp only [List.length_singleton]
    unfold bytesPerRowOf
    omega

lemma decode_packRow : ∀ (r : List Bool),
    ((packRowBytes r).map byteBits).flatten =
      r ++ List.replicate (8 * bytesPerRowOf r.length - r.length) false := by
  intro r
  induction r using packRowBytes.induct with
  | case1 => rfl
  | case2 b0 b1 b2 b3 b4 b5 b6 b7 rest ih =>
    rw [packRowBytes]
    simp only [List.map_cons, List.flatten_cons, ih, byteBits_pack8]
    have harith : 8 * bytesPerRowOf (b0 :: b1 :: b2 :: b3 :: b4 :: b5 :: b6 :: b7 ::
        rest).length - (b0 :: b1 :: b2 :: b3 :: b4 :: b5 :: b6 :: b7 :: rest).length =
        8 * bytesPerRowOf rest.length - rest.length := by
      simp only [List.length_cons]
      unfold bytesPerRowOf
      omega
    rw [harith]
    rfl
  | case3 l h1 h2 =>
    have hlen : l.length < 8 := length_lt_eight_of_no_eight l h2
    have hne : l ≠ [] := fun h => h1 h
    have hpos : 0 < l.length := List.length_pos.mpr hne
    rw [packRowBytes.eq_3 l h1 h2]
    simp only [List.map_cons, List.map_nil, List.flatten_cons, List.flatten_nil,
      List.append_nil]
    rw [byteBits_packShort l hlen]
    have : 8 * bytesPerRowOf l.length - l.length = 8 - l.length := by
      unfold bytesPerRowOf
      omega
    rw [this]

/-! ### Helper lemmas about the chunking loop. -/

lemma chunkListF_nil : ∀ fuel step, chunkListF fuel step [] = []
  | 0, _ => rfl
  | _ + 1, _ => rfl

lemma chunkListF_fuel : ∀ (f1 f2 step : Nat) (l : List Nat), 0 < step →
    l.length ≤ f1 → l.length ≤ f2 → chunkListF f1 step l = chunkListF f2 step l := by
  intro f1
  induction f1 with
  | zero =>
    intro f2 step l _ h1 _
    have : l = [] := List.eq_nil_of_length_eq_zero (by omega)
    subst this
    rw [chunkListF_nil, chunkListF_nil]
  | succ f ih =>
    intro f2 step l hstep h1 h2
    match l with
    | [] => rw [chunkListF_nil, chunkListF_nil]
    | x :: xs =>
      match f2, h2 with
      | g + 1, _ =>
        show (x :: xs).take step :: chunkListF f step ((x :: xs).drop step) =
          (x :: xs).take step :: chunkListF g step ((x :: xs).drop step)
        have hd : ((x :: xs).drop step).length = (x :: xs).length - step := by
          simp [List.length_drop]
        have hlen : (x :: xs).length = xs.length + 1 := rfl
        exact congrArg _ (ih g step _ hstep (by omega) (by omega))

lemma chunkList_append (step : Nat) (a l : List Nat) (hstep : 0 < step)
    (ha : a.length = step) :
    chunkList step (a ++ l) = a :: chunkList step l := by
  have hane : a ≠ [] := by
    intro h; subst h; simp at ha; omega
  obtain ⟨y, ys, rfl⟩ := List.exists_cons_of_ne_nil hane
  unfold chunkList
  have hlen : ((y :: ys) ++ l).length = (step + l.length - 1) + 1 := by
    rw [List.length_append, ha]; omega
  rw [hlen]
  show ((y :: ys) ++ l).take step :: chunkListF (step + l.length - 1) step
      (((y :: ys) ++ l).drop step) = (y :: ys) :: chunkListF l.length step l
  rw [List.take_left' ha, List.drop_left' ha]
  exact congrArg _ (chunkListF_fuel _ _ step l hstep (by omega) le_rfl)

lemma chunkList_concat : ∀ (rows : List (List Nat)) (step : Nat), 0 < step →
    (∀ r ∈ rows, r.length = step) → chunkList step rows.flatten = rows := by
  intro rows
  induction rows with
  | nil => intro step _ _; rfl
  | cons r rest ih =>
    intro step hstep hlen
    have hr : r.length = step := hlen r (List.mem_cons_self r rest)
    have hrest : ∀ x ∈ rest, x.length = step := fun x hx => hlen x (List.mem_cons_of_mem r hx)
    rw [List.flatten_cons, chunkList_append step r rest.flatten hstep hr]
    exact congrArg _ (ih step hstep hrest)

lemma bytesPerRowOf_eq_ceil (w : Nat) : (bytesPerRowOf w : ℤ) = ⌈(w : ℚ) / 8⌉ := by
  have h1 : 8 * bytesPerRowOf w ≤ w + 7 := by unfold bytesPerRowOf; omega
  have h2 : w ≤ 8 * bytesPerRowOf w := by unfold bytesPerRowOf; omega
  have h1' : (8 : ℚ) * (bytesPerRowOf w : ℚ) ≤ (w : ℚ) + 7 := by exact_mod_cast h1
  have h2' : (w : ℚ) ≤ 8 * (bytesPerRowOf w : ℚ) := by exact_mod_cast h2
  rw [eq_comm, Int.ceil_eq_iff]
  constructor
  · rw [lt_div_iff₀ (by norm_num : (0 : ℚ) < 8)]
    push_cast
    linarith
  · rw [div_le_iff₀ (by norm_num : (0 : ℚ) < 8)]
    push_cast
    linarith

/-- C1: for every binarized (mode-'1') bitmap of positive width and every
parameter set, `print_image` emits exactly the text
`^XA\n^PW<w>\n^LL<l>\n^PR<speed>,0,0\n^MD<darkness>\n^PQ<quantity>\n`
`^FO<x>,<y>\n^GFA,<total>,<total>,<bpr>,\n<hex rows by newlines>\n^FS\n^XZ`,
with the total-bytes value in both header positions, every numeric field a
decimal integer with no leading zeros, and every hex row made of uppercase
hex characters with no separators. -/
theorem c1_output_format (w : Nat) (rows : List (List Bool)) (t : Nat)
    (p : PrintParams) (hw : 0 < w) (hwf : ∀ r ∈ rows, r.length = w) :
    zplOfImage (PILImage.oneBit w rows) t p =
      Except.ok ("^XA\n" ++ "^PW" ++ pyStr p.pw ++ "\n^LL" ++ pyStr p.ll ++ "\n" ++
        "^PR" ++ pyStr p.printSpeed ++ ",0,0\n" ++ "^MD" ++ pyStr p.darkness ++ "\n" ++
        "^PQ" ++ pyStr p.quantity ++ "\n" ++
        "^FO" ++ pyStr p.positionX ++ "," ++ pyStr p.positionY ++ "\n" ++
        "^GFA," ++ pyStr (totalBytesOf w rows.length) ++ "," ++
        pyStr (totalBytesOf w rows.length) ++ "," ++ pyStr (bytesPerRowOf w) ++ ",\n" ++
        String.intercalate "\n" (rows.map (fun r => rowHex (packRowBytes r))) ++ "\n" ++
        "^FS\n^XZ") ∧
    (∀ n, decNoLeadingZeros (pyStr n) = true) ∧
    (∀ r ∈ rows, ∀ c ∈ (rowHex (packRowBytes r)).data, isUpperHexChar c = true) := by
  refine ⟨?_, pyStr_noLeadingZeros, ?_⟩
  · have hbpr : ¬ bytesPerRowOf w = 0 := by unfold bytesPerRowOf; omega
    have hlen : ∀ r' ∈ rows.map packRowBytes, r'.length = bytesPerRowOf w := by
      intro r' hr'
      obtain ⟨r, hr, rfl⟩ := List.mem_map.mp hr'
      rw [packRowBytes_length, hwf r hr]
    have hchunk : chunkList (bytesPerRowOf w) ((rows.map packRowBytes).flatten) =
        rows.map packRowBytes :=
      chunkList_concat _ _ (Nat.pos_of_ne_zero hbpr) hlen
    simp only [zplOfImage, PILImage.width, PILImage.height, toBits, if_neg hbpr]
    rw [hchunk, List.map_map]
    rfl
  · intro r _ c hc
    exact rowHex_upper _ (packRowBytes_lt r) c hc

/-- Witness for C1 at a concrete 1x1 bitmap and the UI default parameters. -/
theorem c1_output_format_witness :
    0 < 1 ∧ (∀ r ∈ [[true]], r.length = 1) ∧
    zplOfImage (PILImage.oneBit 1 [[true]]) 128 ⟨0, 10, 2, 25, 1, 812, 1218⟩ =
      Except.ok ("^XA\n" ++ "^PW" ++ pyStr 812 ++ "\n^LL" ++ pyStr 1218 ++ "\n" ++
        "^PR" ++ pyStr 2 ++ ",0,0\n" ++ "^MD" ++ pyStr 25 ++ "\n" ++
        "^PQ" ++ pyStr 1 ++ "\n" ++ "^FO" ++ pyStr 0 ++ "," ++ pyStr 10 ++ "\n" ++
        "^GFA," ++ pyStr (totalBytesOf 1 1) ++ "," ++ pyStr (totalBytesOf 1 1) ++ "," ++
        pyStr (bytesPerRowOf 1) ++ ",\n" ++
        String.intercalate "\n" ([[true]].map (fun r => rowHex (packRowBytes r))) ++ "\n" ++
        "^FS\n^XZ") :=
  ⟨by decide, by decide,
    (c1_output_format 1 [[true]] 128 ⟨0, 10, 2, 25, 1, 812, 1218⟩
      (by decide) (by decide)).1⟩

/-- C2: for every monochrome bitmap of positive width and height, the
encoder produces `bytes_per_row = ceil(W/8)` and
`total_bytes = bytes_per_row * H` (for W=812, H=1218 these are 102 and
124236); each row is packed MSB first into `bytes_per_row` bytes with the
unused trailing bits zero, hex rows are uppercase pairs, and decoding the
hex text of a row recovers the original bits followed by the zero
padding. -/
theorem c2_packing_roundtrip (w h : Nat) (rows : List (List Bool))
    (_hw : 0 < w) (_hh : 0 < h) (_hlen : rows.length = h)
    (hwf : ∀ r ∈ rows, r.length = w) :
    ((bytesPerRowOf w : ℤ) = ⌈(w : ℚ) / 8⌉) ∧
    totalBytesOf w h = bytesPerRowOf w * h ∧
    (∀ r ∈ rows, (packRowBytes r).length = bytesPerRowOf w ∧
      (rowHex (packRowBytes r)).length = 2 * bytesPerRowOf w ∧
      decodeRowBits (rowHex (packRowBytes r)) =
        r ++ List.replicate (8 * bytesPerRowOf w - w) false) ∧
    bytesPerRowOf 812 = 102 ∧ totalBytesOf 812 1218 = 124236 := by
  refine ⟨bytesPerRowOf_eq_ceil w, rfl, ?_, by norm_num [bytesPerRowOf],
    by norm_num [totalBytesOf, bytesPerRowOf]⟩
  intro r hr
  have hrw : r.length = w := hwf r hr
  refine ⟨by rw [packRowBytes_length, hrw], ?_, ?_⟩
  · show (String.mk ((packRowBytes r).map byteHexChars).flatten).length =
      2 * bytesPerRowOf w
    have : ∀ bytes : List Nat, ((bytes.map byteHexChars).flatten).length =
        2 * bytes.length := by
      intro bytes
      induction bytes with
      | nil => rfl
      | cons b rest ih =>
        simp only [List.map_cons, List.flatten_cons, List.length_append, ih,
          byteHexChars, List.length_cons, List.length_nil]
        omega
    show ((packRowBytes r).map byteHexChars).flatten.length = 2 * bytesPerRowOf w
    rw [this, packRowBytes_length, hrw]
  · show ((unhexBytes (rowHex (packRowBytes r)).data).map byteBits).flatten =
      r ++ List.replicate (8 * bytesPerRowOf w - w) false
    rw [unhex_rowHex _ (packRowBytes_lt r), decode_packRow, hrw]

/-- Witness for C2 at a concrete 3x1 bitmap. -/
theorem c2_packing_roundtrip_witness :
    0 < 3 ∧ 0 < 1 ∧
    (((bytesPerRowOf 3 : ℤ) = ⌈(3 : ℚ) / 8⌉) ∧
      totalBytesOf 3 1 = bytesPerRowOf 3 * 1 ∧
      (∀ r ∈ [[true, false, true]], (packRowBytes r).length = bytesPerRowOf 3 ∧
        (rowHex (packRowBytes r)).length = 2 * bytesPerRowOf 3 ∧
        decodeRowBits (rowHex (packRowBytes r)) =
          r ++ List.replicate (8 * bytesPerRowOf 3 - 3) false) ∧
      bytesPerRowOf 812 = 102 ∧ totalBytesOf 812 1218 = 124236) :=
  ⟨by decide, by decide,
    c2_packing_roundtrip 3 1 [[true, false, true]] (by decide) (by decide)
      (by decide) (by decide)⟩

/-- C3 counterexample: a zero-height bitmap (positive width 8, no rows)
is not rejected by the encoder; it silently emits a complete command with
`^GFA,0,0,1,` and an empty hex body, refuting "rejects with a descriptive
error before producing any output" for zero-height input. -/
theorem c3_zero_height_counterexample :
    zplOfImage (PILImage.oneBit 8 []) 128 ⟨0, 10, 2, 25, 1, 812, 1218⟩ =
      Except.ok "^XA\n^PW812\n^LL1218\n^PR2,0,0\n^MD25\n^PQ1\n^FO0,10\n^GFA,0,0,1,\n\n^FS\n^XZ" := by
  unfold zplOfImage
  rfl

/-- C3 amended: a zero-width bitmap makes the hex-row loop fail with
Python's range step-zero error before any output is produced, but a
zero-height bitmap of positive width is not rejected: the encoder
silently emits a raster block with total_bytes 0 and an empty hex body. -/
theorem c3_degenerate_bitmaps (rows : List (List Bool)) (t w : Nat)
    (p : PrintParams) (hw : 0 < w) :
    zplOfImage (PILImage.oneBit 0 rows) t p =
      Except.error "range() arg 3 must not be zero" ∧
    zplOfImage (PILImage.oneBit w []) t p =
      Except.ok ("^XA\n" ++ "^PW" ++ pyStr p.pw ++ "\n^LL" ++ pyStr p.ll ++ "\n" ++
        "^PR" ++ pyStr p.printSpeed ++ ",0,0\n" ++ "^MD" ++ pyStr p.darkness ++ "\n" ++
        "^PQ" ++ pyStr p.quantity ++ "\n" ++
        "^FO" ++ pyStr p.positionX ++ "," ++ pyStr p.positionY ++ "\n" ++
        "^GFA," ++ "0" ++ "," ++ "0" ++ "," ++ pyStr (bytesPerRowOf w) ++ ",\n" ++
        "" ++ "\n" ++ "^FS\n^XZ") := by
  constructor
  · simp [zplOfImage, PILImage.width, bytesPerRowOf]
  · have hbpr : ¬ bytesPerRowOf w = 0 := by unfold bytesPerRowOf; omega
    simp only [zplOfImage, PILImage.width, PILImage.height, toBits, if_neg hbpr,
      List.map_nil, List.flatten_nil, List.length_nil]
    have h0 : totalBytesOf w 0 = 0 := by simp [totalBytesOf]
    rw [h0]
    rfl

/-- Witness for C3's amended statement at width 8. -/
theorem c3_degenerate_bitmaps_witness :
    0 < 8 ∧
    (zplOfImage (PILImage.oneBit 0 []) 128 ⟨0, 10, 2, 25, 1, 812, 1218⟩ =
        Except.error "range() arg 3 must not be zero" ∧
      zplOfImage (PILImage.oneBit 8 []) 128 ⟨0, 10, 2, 25, 1, 812, 1218⟩ =
        Except.ok ("^XA\n" ++ "^PW" ++ pyStr 812 ++ "\n^LL" ++ pyStr 1218 ++ "\n" ++
          "^PR" ++ pyStr 2 ++ ",0,0\n" ++ "^MD" ++ pyStr 25 ++ "\n" ++
          "^PQ" ++ pyStr 1 ++ "\n" ++ "^FO" ++ pyStr 0 ++ "," ++ pyStr 10 ++ "\n" ++
          "^GFA," ++ "0" ++ "," ++ "0" ++ "," ++ pyStr (bytesPerRowOf 8) ++ ",\n" ++
          "" ++ "\n" ++ "^FS\n^XZ")) :=
  ⟨by decide, c3_degenerate_bitmaps [] 128 8 ⟨0, 10, 2, 25, 1, 812, 1218⟩ (by decide)⟩

/-- C10: an image already in 1-bit mode bypasses binarization entirely:
the emitted command is identical for any two thresholds, the packed bits
are exactly the stored bits, while the same visual content supplied as
grayscale (white 255, black 0) binarizes to the pointwise complement, so
an already-binarized image prints with opposite polarity. -/
theorem c10_onebit_passthrough (w : Nat) (bits : List (List Bool))
    (p : PrintParams) (t1 t2 t : Nat) (ht0 : 0 < t) (ht : t ≤ 255) :
    zplOfImage (PILImage.oneBit w bits) t1 p =
      zplOfImage (PILImage.oneBit w bits) t2 p ∧
    toBits t1 (PILImage.oneBit w bits) = bits ∧
    toBits t (PILImage.gray w
        (bits.map (fun r => r.map (fun b => if b then 255 else 0)))) =
      bits.map (fun r => r.map (fun b => !b)) := by
  refine ⟨rfl, rfl, ?_⟩
  have hfun : ∀ b : Bool, decide ((if b then 255 else 0) < t) = !b := by
    intro b
    cases b
    · simpa using ht0
    · simpa using ht
  simp only [toBits, List.map_map]
  congr 1
  funext r
  simp only [Function.comp_apply, List.map_map]
  congr 1
  funext b
  exact hfun b

/-- Witness for C10 at threshold 128 and a concrete one-pixel image. -/
theorem c10_onebit_passthrough_witness :
    0 < 128 ∧ 128 ≤ 255 ∧
    (zplOfImage (PILImage.oneBit 1 [[true]]) 0 ⟨0, 10, 2, 25, 1, 812, 1218⟩ =
        zplOfImage (PILImage.oneBit 1 [[true]]) 255 ⟨0, 10, 2, 25, 1, 812, 1218⟩ ∧
      toBits 0 (PILImage.oneBit 1 [[true]]) = [[true]] ∧
      toBits 128 (PILImage.gray 1
          ([[true]].map (fun r => r.map (fun b => if b then 255 else 0)))) =
        [[true]].map (fun r => r.map (fun b => !b))) :=
  ⟨by decide, by decide,
    c10_onebit_passthrough 1 [[true]] ⟨0, 10, 2, 25, 1, 812, 1218⟩ 0 255 128
      (by decide) (by decide)⟩

/-! ### Label region recovery: `extract_label_from_pdf` (lines 11-238).
The rendered page is a grayscale pixel grid; the physical page size in
inches comes from the PDF metadata (points / 72) and is a rational.
Python float arithmetic is modelled over `ℚ`. -/

/-- A rendered page image: explicit pixel width and row-major grayscale
samples (0..255). -/
structure Img where
  width : Nat
  rows : List (List Nat)

/-- Pixel height of the image. -/
def Img.height (im : Img) : Nat := im.rows.length

/-- Rows all have the declared width. -/
def Img.WF (im : Img) : Prop := ∀ r ∈ im.rows, r.length = im.width

/-- The letter-size check of lines 31-34:
`(7.5 < w < 9.5 and 10 < h < 12) or (10 < w < 12 and 7.5 < h < 9.5)`. -/
def isLetterSize (w h : ℚ) : Bool :=
  (decide (7.5 < w) && decide (w < 9.5) && decide (10 < h) && decide (h < 12)) ||
    (decide (10 < w) && decide (w < 12) && decide (7.5 < h) && decide (h < 9.5))

/-- A content bounding box, right- and bottom-exclusive pixel
coordinates, as PIL `getbbox` returns. -/
structure BBox where
  left : Nat
  top : Nat
  right : Nat
  bottom : Nat

/-- All ink coordinates of the page: pixels whose sample is below the
threshold (the content of the inverted binary mask of lines 56-63),
listed as (x, y). -/
def inkPixels (thr : Nat) (rows : List (List Nat)) : List (Nat × Nat) :=
  (rows.enum.map (fun yr =>
    ((yr.2.enum.filter (fun xc => decide (xc.2 < thr))).map
      (fun xc => (xc.1, yr.1))))).flatten

/-- Model of `ImageOps.invert(binary).getbbox()` (line 63): the tightest
box around all ink pixels, `none` when the page has no ink. -/
def getbbox (thr : Nat) (rows : List (List Nat)) : Option BBox :=
  match inkPixels thr rows with
  | [] => none
  | p :: ps =>
      some ⟨ps.foldl (fun a q => min a q.1) p.1,
            ps.foldl (fun a q => min a q.2) p.2,
            ps.foldl (fun a q => max a q.1) p.1 + 1,
            ps.foldl (fun a q => max a q.2) p.2 + 1⟩

/-- The whole-page-coverage test of lines 75-80: left/top within 5% of
the origin and right/bottom beyond 95% of the page. -/
def bboxCoversPage (b : BBox) (w h : Nat) : Bool :=
  decide ((b.left : ℚ) < (w : ℚ) * 0.05) && decide ((b.top : ℚ) < (h : ℚ) * 0.05) &&
    decide ((b.right : ℚ) > (w : ℚ) * 0.95) && decide ((b.bottom : ℚ) > (h : ℚ) * 0.95)

/-- Line 88: `strip_width = img.width // 20`. -/
def stripWidthOf (w : Nat) : Nat := w / 20

/-- Ink-pixel count of one vertical strip: the crop
`binary.crop((i*sw, 0, (i+1)*sw, height))` counted for dark pixels
(lines 92-96). -/
def stripInkCount (thr sw i : Nat) (rows : List (List Nat)) : Nat :=
  (rows.map (fun r =>
    ((r.drop (i * sw)).take sw).countP (fun s => decide (s < thr)))).sum

/-- The strips whose ink density exceeds 2% (line 105):
`[i for i, d in strip_densities if d > 0.02]` with
`density = dark_pixels / (strip_width * img.height)`. -/
def labelStrips (thr : Nat) (rows : List (List Nat)) (w h : Nat) : List Nat :=
  (List.range 20).filter (fun i =>
    decide ((stripInkCount thr (stripWidthOf w) i rows : ℚ) /
      ((stripWidthOf w * h : Nat) : ℚ) > 0.02))

/-- The vertical half of the refinement (lines 116-124): inside the
horizontal band `[left, right)` recompute the ink extent and widen it by
the margin (clamped to the page height).  `none` when the band has no
ink. -/
def refineVertical (thr left right margin h : Nat) (rows : List (List Nat)) :
    Option BBox :=
  match getbbox thr (rows.map (fun r => (r.drop left).take (right - left))) with
  | none => none
  | some rb => some ⟨left, rb.top - margin, right, min h (rb.bottom + margin)⟩

/-- Column-density refinement (lines 86-127): pick the min/max qualifying
strip, widen by one strip width (clamped; `max(0, x)` on ints is `Nat`
truncated subtraction), then recompute the vertical ink extent inside
that band with the same margin.  Returns `none` when no strip qualifies
or the band has no ink, in which case the caller keeps the unrefined
bbox. -/
def refineBbox (thr : Nat) (rows : List (List Nat)) (w h : Nat) : Option BBox :=
  let sw := stripWidthOf w
  match labelStrips thr rows w h with
  | [] => none
  | i0 :: rest =>
    refineVertical thr ((rest.foldl min i0) * sw - sw)
      (min w (((rest.foldl max i0) + 1) * sw + sw)) sw h rows

/-- The bbox actually used after the coverage check (lines 82-127): the
refined bbox when the raw bbox covers the whole page and refinement
succeeds, otherwise the raw bbox. -/
def chosenBbox (b : BBox) (rows : List (List Nat)) (w h : Nat) : BBox :=
  if bboxCoversPage b w h then (refineBbox 240 rows w h).getD b else b

/-- Label-size resolution from content extents in inches (lines 150-162):
long/short edge of the assumed physical label. -/
def labelEdges (contentW contentH : ℚ) : ℚ × ℚ :=
  let maxd := max contentW contentH
  let mind := min contentW contentH
  if maxd > 5 then (6, 4)
  else if maxd > 3 then (4, 2)
  else (maxd + 0.2, mind + 0.2)

/-- The rotation decision of lines 193-227: rotate iff the crop is
landscape (aspect ratio > 1) or the content spans more than 70% of the
page height while the aspect ratio exceeds 0.5. -/
def needsRotation (cropW cropH contentH pageH : Nat) : Bool :=
  decide ((cropW : ℚ) / (cropH : ℚ) > 1) ||
    (decide ((contentH : ℚ) > (pageH : ℚ) * 0.7) &&
      decide ((cropW : ℚ) / (cropH : ℚ) > 0.5))

/-- Model of `img.crop((l, t, r, b))` for an in-bounds box: rows t..b-1
restricted to columns l..r-1. -/
def cropImg (im : Img) (l t r b : Nat) : Img :=
  ⟨r - l, ((im.rows.drop t).take (b - t)).map (fun row => (row.drop l).take (r - l))⟩

/-- Model of `img.rotate(90, expand=True)`: one 90-degree
counter-clockwise rotation; output row j is input column (w-1-j) read
top to bottom. -/
def rotate90ccw (w : Nat) (rows : List (List Nat)) : List (List Nat) :=
  ((List.range w).map (fun i => rows.map (fun r => r.getD i 0))).reverse

/-- Rotate a whole image counter-clockwise (dimensions swap). -/
def rotateImg (im : Img) : Img := ⟨im.height, rotate90ccw im.width im.rows⟩

/-- Sample at column x of row y (0 outside the grid). -/
def pixelAt (rows : List (List Nat)) (x y : Nat) : Nat :=
  (rows.getD y []).getD x 0

/-- The whole of `extract_label_from_pdf` after rendering: non-letter
pages pass through; letter pages get bbox detection (empty page passes
through), the coverage check with density refinement, label-size
resolution, a crop centered on the content, and the rotation decision.
Python raises ZeroDivisionError where a modelled `ℚ` division has a zero
denominator (strip width 0, crop height 0); those states are unreachable
for rendered letter pages (width ≥ 1523 px at 203 dpi). -/
def extractLabel (pageWIn pageHIn : ℚ) (dpi : Nat) (im : Img) : Img :=
  if isLetterSize pageWIn pageHIn then
    match getbbox 240 im.rows with
    | none => im
    | some bbox0 =>
      let bbox := chosenBbox bbox0 im.rows im.width im.height
      let contentWIn : ℚ := ((bbox.right - bbox.left : Nat) : ℚ) / (dpi : ℚ)
      let contentHIn : ℚ := ((bbox.bottom - bbox.top : Nat) : ℚ) / (dpi : ℚ)
      let edges := labelEdges contentWIn contentHIn
      let cx : ℚ := ((bbox.left + bbox.right : Nat) : ℚ) / 2
      let cy : ℚ := ((bbox.top + bbox.bottom : Nat) : ℚ) / 2
      let chw : ℚ := edges.1 * (dpi : ℚ) / 2
      let chh : ℚ := edges.2 * (dpi : ℚ) / 2
      let left := (⌊max 0 (cx - chw)⌋).toNat
      let right := (⌊min ((im.width : ℚ)) (cx + chw)⌋).toNat
      let top := (⌊max 0 (cy - chh)⌋).toNat
      let bottom := (⌊min ((im.height : ℚ)) (cy + chh)⌋).toNat
      let cropped := cropImg im left top right bottom
      if needsRotation cropped.width cropped.height (bbox.bottom - bbox.top) im.height
      then rotateImg cropped else cropped
  else im

/-- C4: a page is letter-like exactly when its inch size is within
(7.5, 9.5) x (10, 12) or the transpose, and every non-letter-like page
passes through label recovery unchanged, with no crop, refinement or
rotation. -/
theorem c4_letter_classification_identity (wIn hIn : ℚ) (dpi : Nat) (im : Img) :
    (isLetterSize wIn hIn = true ↔
      ((7.5 < wIn ∧ wIn < 9.5 ∧ 10 < hIn ∧ hIn < 12) ∨
        (10 < wIn ∧ wIn < 12 ∧ 7.5 < hIn ∧ hIn < 9.5))) ∧
    (isLetterSize wIn hIn = false → extractLabel wIn hIn dpi im = im) := by
  constructor
  · simp [isLetterSize, and_assoc]
  · intro hfalse
    simp [extractLabel, hfalse]

/-- Witness for C4 on a 4x6 inch page. -/
theorem c4_letter_classification_identity_witness :
    isLetterSize 4 6 = false ∧ extractLabel 4 6 203 ⟨1, [[0]]⟩ = ⟨1, [[0]]⟩ := by
  have h : isLetterSize 4 6 = false := by norm_num [isLetterSize]
  exact ⟨h, (c4_letter_classification_identity 4 6 203 ⟨1, [[0]]⟩).2 h⟩

/-- C6: the nominal label is resolved from the larger content dimension
in inches: above 5in a 6x4 label, else above 3in a 4x2 label, else the
measured extents plus 0.2in each; a 1230x820 px bbox at 203 dpi gives
6x4, and a crop aspect ratio above 1 triggers rotation. -/
theorem c6_label_size_resolution (cw ch : ℚ) :
    (max cw ch > 5 → labelEdges cw ch = (6, 4)) ∧
    (¬ max cw ch > 5 → max cw ch > 3 → labelEdges cw ch = (4, 2)) ∧
    (¬ max cw ch > 5 → ¬ max cw ch > 3 →
      labelEdges cw ch = (max cw ch + 0.2, min cw ch + 0.2)) ∧
    labelEdges ((1230 : ℚ) / 203) ((820 : ℚ) / 203) = (6, 4) ∧
    (∀ cropW cropH contentH pageH : Nat, (cropW : ℚ) / (cropH : ℚ) > 1 →
      needsRotation cropW cropH contentH pageH = true) := by
  refine ⟨?_, ?_, ?_, ?_, ?_⟩
  · intro h5; simp [labelEdges, h5]
  · intro h5 h3; simp [labelEdges, h5, h3]
  · intro h5 h3; simp [labelEdges, h5, h3]
  · have hmax : max ((1230 : ℚ) / 203) ((820 : ℚ) / 203) = (1230 : ℚ) / 203 := by
      rw [max_eq_left]; norm_num
    simp only [labelEdges, hmax]
    norm_num
  · intro cropW cropH contentH pageH hasp
    simp [needsRotation, hasp]

/-- Witness for C6 at content extents 6in x 4in. -/
theorem c6_label_size_resolution_witness :
    max (6 : ℚ) 4 > 5 ∧ labelEdges 6 4 = (6, 4) :=
  ⟨by norm_num, (c6_label_size_resolution 6 4).1 (by norm_num)⟩

/-- C7: the whole-page-coverage test holds exactly when all four edge
conditions hold (left/top within 5%, right/bottom beyond 95%); a
covering bbox routes through column-density refinement (with the raw
bbox only as that refinement's fallback), and a non-covering bbox is
used directly with no refinement. -/
theorem c7_coverage_routing (b : BBox) (w h : Nat) (rows : List (List Nat)) :
    (bboxCoversPage b w h = true ↔
      ((b.left : ℚ) < (w : ℚ) * 0.05 ∧ (b.top : ℚ) < (h : ℚ) * 0.05 ∧
        (b.right : ℚ) > (w : ℚ) * 0.95 ∧ (b.bottom : ℚ) > (h : ℚ) * 0.95)) ∧
    (bboxCoversPage b w h = true →
      chosenBbox b rows w h = (refineBbox 240 rows w h).getD b) ∧
    (bboxCoversPage b w h = false → chosenBbox b rows w h = b) := by
  refine ⟨by simp [bboxCoversPage, and_assoc], ?_, ?_⟩
  · intro htrue; simp [chosenBbox, htrue]
  · intro hfalse; simp [chosenBbox, hfalse]

/-- Witness for C7 with a full-page bbox on a 100x100 page. -/
theorem c7_coverage_routing_witness :
    bboxCoversPage ⟨0, 0, 100, 100⟩ 100 100 = true ∧
    chosenBbox ⟨0, 0, 100, 100⟩ [[0]] 100 100 =
      (refineBbox 240 [[0]] 100 100).getD ⟨0, 0, 100, 100⟩ := by
  have h : bboxCoversPage ⟨0, 0, 100, 100⟩ 100 100 = true := by
    simp [bboxCoversPage]
    norm_num
  exact ⟨h, (c7_coverage_routing ⟨0, 0, 100, 100⟩ 100 100 [[0]]).2.1 h⟩

lemma rotate90ccw_length (w : Nat) (rows : List (List Nat)) :
    (rotate90ccw w rows).length = w := by
  simp [rotate90ccw]

lemma rotate90ccw_row_length (w : Nat) (rows : List (List Nat)) :
    ∀ row ∈ rotate90ccw w rows, row.length = rows.length := by
  intro row hrow
  unfold rotate90ccw at hrow
  rw [List.mem_reverse] at hrow
  obtain ⟨i, _, rfl⟩ := List.mem_map.mp hrow
  simp

lemma rotate90ccw_pixel (w : Nat) (rows : List (List Nat)) (x y : Nat)
    (hx : x < w) (hy : y < rows.length) :
    pixelAt (rotate90ccw w rows) y (w - 1 - x) = pixelAt rows x y := by
  unfold pixelAt rotate90ccw
  have hlen : (((List.range w).map
      (fun i => rows.map (fun r => r.getD i 0))).reverse).length = w := by simp
  have hidx : w - 1 - x < (((List.range w).map
      (fun i => rows.map (fun r => r.getD i 0))).reverse).length := by
    rw [hlen]; omega
  rw [List.getD_eq_getElem _ _ hidx, List.getElem_reverse]
  simp only [List.length_map, List.length_range, List.getElem_map,
    List.getElem_range]
  have harith : w - 1 - (w - 1 - x) = x := by omega
  rw [harith]
  rw [List.getD_eq_getElem _ _ (by simpa using hy), List.getD_eq_getElem _ _ hy,
    List.getElem_map]

/-- C5: the crop is rotated iff its aspect ratio exceeds 1, or the
content bbox height exceeds 70% of the page height and the aspect ratio
exceeds 0.5; the rotation is one 90-degree counter-clockwise turn whose
output dimensions are the input dimensions swapped and which relocates
every input pixel (no pixel loss). -/
theorem c5_rotation_rule (cropW cropH contentH pageH w : Nat)
    (rows : List (List Nat)) (_hch : 0 < cropH) :
    (needsRotation cropW cropH contentH pageH = true ↔
      ((cropW : ℚ) / (cropH : ℚ) > 1 ∨
        ((contentH : ℚ) > (pageH : ℚ) * 0.7 ∧ (cropW : ℚ) / (cropH : ℚ) > 0.5))) ∧
    (rotate90ccw w rows).length = w ∧
    (∀ row ∈ rotate90ccw w rows, row.length = rows.length) ∧
    (∀ x y, x < w → y < rows.length →
      pixelAt (rotate90ccw w rows) y (w - 1 - x) = pixelAt rows x y) := by
  exact ⟨by simp [needsRotation], rotate90ccw_length w rows,
    rotate90ccw_row_length w rows,
    fun x y hx hy => rotate90ccw_pixel w rows x y hx hy⟩

/-- Witness for C5 on a 2x1 landscape crop and a 1x1 grid. -/
theorem c5_rotation_rule_witness :
    0 < 1 ∧
    ((needsRotation 2 1 0 1 = true ↔
        ((2 : ℚ) / (1 : ℚ) > 1 ∨
          ((0 : ℚ) > (1 : ℚ) * 0.7 ∧ (2 : ℚ) / (1 : ℚ) > 0.5))) ∧
      (rotate90ccw 1 [[5]]).length = 1 ∧
      (∀ row ∈ rotate90ccw 1 [[5]], row.length = [[5]].length) ∧
      (∀ x y, x < 1 → y < [[5]].length →
        pixelAt (rotate90ccw 1 [[5]]) y (1 - 1 - x) = pixelAt [[5]] x y)) :=
  ⟨by decide, c5_rotation_rule 2 1 0 1 1 [[5]] (by decide)⟩

lemma snd_mem_of_mem_enum {α : Type} {l : List α} {p : Nat × α}
    (h : p ∈ l.enum) : p.2 ∈ l := by
  rw [List.mem_enum_iff_getElem?] at h
  exact List.getElem?_mem h

lemma inkPixels_eq_nil (thr : Nat) (rows : List (List Nat))
    (hblank : ∀ r ∈ rows, ∀ s ∈ r, thr ≤ s) :
    inkPixels thr rows = [] := by
  unfold inkPixels
  rw [List.flatten_eq_nil_iff]
  intro l hl
  obtain ⟨yr, hyr, rfl⟩ := List.mem_map.mp hl
  have hr : yr.2 ∈ rows := snd_mem_of_mem_enum hyr
  have hfil : (yr.2.enum.filter (fun xc => decide (xc.2 < thr))) = [] := by
    rw [List.filter_eq_nil_iff]
    intro xc hxc
    have hs : xc.2 ∈ yr.2 := snd_mem_of_mem_enum hxc
    simp only [decide_eq_true_eq, not_lt]
    exact hblank yr.2 hr xc.2 hs
  rw [hfil]
  rfl

/-- C8: on a letter-like page with no grayscale sample below the ink
threshold 240, the bounding-box detector reports no box and the pipeline
returns the original page buffer unchanged instead of failing. -/
theorem c8_empty_page (wIn hIn : ℚ) (dpi : Nat) (im : Img)
    (hletter : isLetterSize wIn hIn = true)
    (hblank : ∀ r ∈ im.rows, ∀ s ∈ r, 240 ≤ s) :
    getbbox 240 im.rows = none ∧ extractLabel wIn hIn dpi im = im := by
  have hbb : getbbox 240 im.rows = none := by
    unfold getbbox
    rw [inkPixels_eq_nil 240 im.rows hblank]
  refine ⟨hbb, ?_⟩
  simp [extractLabel, hletter, hbb]

/-- Witness for C8 on a blank letter-size page. -/
theorem c8_empty_page_witness :
    isLetterSize 8.5 11 = true ∧
    (∀ r ∈ ([[250]] : List (List Nat)), ∀ s ∈ r, 240 ≤ s) ∧
    (getbbox 240 ([[250]] : List (List Nat)) = none ∧
      extractLabel 8.5 11 203 ⟨1, [[250]]⟩ = ⟨1, [[250]]⟩) := by
  have h1 : isLetterSize 8.5 11 = true := by norm_num [isLetterSize]
  have h2 : ∀ r ∈ ([[250]] : List (List Nat)), ∀ s ∈ r, 240 ≤ s := by decide
  exact ⟨h1, h2, c8_empty_page 8.5 11 203 ⟨1, [[250]]⟩ h1 h2⟩

/-- C9 counterexample: on a page 21 pixels wide the 20 strips have width
`21 // 20 = 1` and cover only columns 0..19, so pixel column 20 (a valid
column, since 20 < 21) belongs to no strip: the strips do not partition
the full page width. -/
theorem c9_strip_partition_counterexample :
    stripWidthOf 21 = 1 ∧ 20 < 21 ∧
    ∀ i, i < 20 → ¬ (i * stripWidthOf 21 ≤ 20 ∧ 20 < (i + 1) * stripWidthOf 21) := by
  decide

lemma refineVertical_fields (thr left right margin h : Nat)
    (rows : List (List Nat)) (bb : BBox)
    (hsome : refineVertical thr left right margin h rows = some bb) :
    bb.left = left ∧ bb.right = right := by
  unfold refineVertical at hsome
  cases hopt : getbbox thr (rows.map (fun r => (r.drop left).take (right - left))) with
  | none => rw [hopt] at hsome; exact absurd hsome (by simp)
  | some rb =>
    rw [hopt] at hsome
    simp only [Option.some.injEq] at hsome
    rw [← hsome]
    exact ⟨rfl, rfl⟩

/-- C9 amended: the 20 strips all have width `w // 20` and are pairwise
disjoint; they cover every pixel column iff 20 divides the page width
(otherwise the rightmost `w mod 20` columns belong to no strip); a strip
is selected iff its ink density exceeds 2%; with no qualifying strip the
refinement yields nothing and the raw bbox is kept; and a produced
refinement has the min/max qualifying strips' bounds widened by exactly
one strip width, clamped to the page. -/
theorem c9_density_refinement (thr w h : Nat) (rows : List (List Nat))
    (b : BBox) (hw : 20 ≤ w) :
    (20 ∣ w → ∀ col, col < w → ∃ i, i < 20 ∧
      i * stripWidthOf w ≤ col ∧ col < (i + 1) * stripWidthOf w) ∧
    (¬ 20 ∣ w → ∀ i, i < 20 →
      ¬ (i * stripWidthOf w ≤ w - 1 ∧ w - 1 < (i + 1) * stripWidthOf w)) ∧
    (∀ i j col, i * stripWidthOf w ≤ col → col < (i + 1) * stripWidthOf w →
      j * stripWidthOf w ≤ col → col < (j + 1) * stripWidthOf w → i = j) ∧
    (∀ i, i ∈ labelStrips thr rows w h ↔ i < 20 ∧
      (stripInkCount thr (stripWidthOf w) i rows : ℚ) /
        ((stripWidthOf w * h : Nat) : ℚ) > 0.02) ∧
    (labelStrips thr rows w h = [] → refineBbox thr rows w h = none) ∧
    (bboxCoversPage b w h = true → refineBbox 240 rows w h = none →
      chosenBbox b rows w h = b) ∧
    (∀ i0 rest bb, labelStrips thr rows w h = i0 :: rest →
      refineBbox thr rows w h = some bb →
      bb.left = (rest.foldl min i0) * stripWidthOf w - stripWidthOf w ∧
      bb.right = min w (((rest.foldl max i0) + 1) * stripWidthOf w +
        stripWidthOf w)) := by
  have hsw : 0 < stripWidthOf w := by unfold stripWidthOf; omega
  refine ⟨?_, ?_, ?_, ?_, ?_, ?_, ?_⟩
  · intro hdvd col hcol
    refine ⟨col / stripWidthOf w, ?_, Nat.div_mul_le_self col _, ?_⟩
    · rw [Nat.div_lt_iff_lt_mul hsw]
      have : 20 * stripWidthOf w = w := by unfold stripWidthOf; omega
      omega
    · have h1 : col % stripWidthOf w < stripWidthOf w := Nat.mod_lt _ hsw
      have h2 : stripWidthOf w * (col / stripWidthOf w) + col % stripWidthOf w
          = col := Nat.div_add_mod col _
      have h3 : (col / stripWidthOf w + 1) * stripWidthOf w =
          stripWidthOf w * (col / stripWidthOf w) + stripWidthOf w := by ring
      omega
  · intro hndvd i hi hcontra
    have h20 : 20 * stripWidthOf w ≤ w - 1 := by unfold stripWidthOf; omega
    have hle : (i + 1) * stripWidthOf w ≤ 20 * stripWidthOf w :=
      Nat.mul_le_mul_right _ (by omega)
    omega
  · intro i j col hi1 hi2 hj1 hj2
    have hdi : col / stripWidthOf w = i := Nat.div_eq_of_lt_le hi1 hi2
    have hdj : col / stripWidthOf w = j := Nat.div_eq_of_lt_le hj1 hj2
    omega
  · intro i
    simp [labelStrips, List.mem_filter, List.mem_range]
  · intro hemp
    simp [refineBbox, hemp]
  · intro hcov hnone
    simp [chosenBbox, hcov, hnone]
  · intro i0 rest bb hstrips hsome
    simp only [refineBbox, hstrips] at hsome
    exact refineVertical_fields _ _ _ _ _ _ _ hsome

/-- Witness for C9's amended statement on a 20-pixel-wide page. -/
theorem c9_density_refinement_witness :
    20 ≤ 20 ∧
    ((20 ∣ 20 → ∀ col, col < 20 → ∃ i, i < 20 ∧
        i * stripWidthOf 20 ≤ col ∧ col < (i + 1) * stripWidthOf 20) ∧
      (¬ 20 ∣ 20 → ∀ i, i < 20 →
        ¬ (i * stripWidthOf 20 ≤ 20 - 1 ∧ 20 - 1 < (i + 1) * stripWidthOf 20)) ∧
      (∀ i j col, i * stripWidthOf 20 ≤ col → col < (i + 1) * stripWidthOf 20 →
        j * stripWidthOf 20 ≤ col → col < (j + 1) * stripWidthOf 20 → i = j) ∧
      (∀ i, i ∈ labelStrips 240 [[0]] 20 1 ↔ i < 20 ∧
        (stripInkCount 240 (stripWidthOf 20) i [[0]] : ℚ) /
          ((stripWidthOf 20 * 1 : Nat) : ℚ) > 0.02) ∧
      (labelStrips 240 [[0]] 20 1 = [] → refineBbox 240 [[0]] 20 1 = none) ∧
      (bboxCoversPage ⟨0, 0, 1, 1⟩ 20 1 = true → refineBbox 240 [[0]] 20 1 = none →
        chosenBbox ⟨0, 0, 1, 1⟩ [[0]] 20 1 = ⟨0, 0, 1, 1⟩) ∧
      (∀ i0 rest bb, labelStrips 240 [[0]] 20 1 = i0 :: rest →
        refineBbox 240 [[0]] 20 1 = some bb →
        bb.left = (rest.foldl min i0) * stripWidthOf 20 - stripWidthOf 20 ∧
        bb.right = min 20 (((rest.foldl max i0) + 1) * stripWidthOf 20 +
          stripWidthOf 20))) :=
  ⟨by decide, c9_density_refinement 240 20 1 [[0]] ⟨0, 0, 1, 1⟩ (by decide)⟩
